import Mathlib

/-!
Shallow embedding of the task persistence and query engine of the
`devgugga/todo-it` repository (Go, MongoDB-backed).

The embedding models the MongoDB `tasks` collection as a list of task
records together with a connection-health flag (`connOk`): every
repository operation in the source first performs a driver call that can
fail (network / storage failure, wrapped into an error return); `connOk
= false` abstracts exactly that failure path, `connOk = true` is the
healthy path in which the driver's documented semantics apply.

Timestamps (`time.Time`) are modelled as natural-number ticks and the
current time (`time.Now()`) is passed explicitly as a `now` parameter.
MongoDB `ObjectID`s are modelled as naturals, `0` playing the role of
the zero ObjectID (the `omitempty` bson tag omits exactly the zero
value, in which case the driver generates a fresh id on insert).

Statuses and priorities are modelled as strings, exactly as in the
source (`type TaskStatus string`), so that invalid enum values are
representable; the four enumerated constants of each mirror
`internal/enums`.
-/

namespace TodoIt

abbrev ObjectId := Nat
abbrev Timestamp := Nat

/-- Error classification of the repository layer: `notFound` is the
"todo não encontrado" error produced on a zero match/delete count,
`persistence` is any wrapped driver/storage failure. -/
inductive RepoError where
  | notFound
  | persistence
deriving Repr, DecidableEq

/-- Status constants of `internal/enums/task_status.go`. -/
def StatusPending : String := "pending"

def StatusInProgress : String := "in_progress"

def StatusCompleted : String := "completed"

def StatusCancelled : String := "cancelled"

/-- The list returned by `enums.GetAllStatuses`. -/
def GetAllStatuses : List String :=
  [StatusPending, StatusInProgress, StatusCompleted, StatusCancelled]

/-- Priority constants of `internal/enums/task_priority.go`. -/
def PriorityLow : String := "low"

def PriorityMedium : String := "medium"

def PriorityHigh : String := "high"

def PriorityUrgent : String := "urgent"

/-- The task entity of `internal/entities/task.go`, field for field.
Optional (`*time.Time`, omitempty) fields become `Option`. -/
structure Task where
  id : ObjectId
  userID : ObjectId
  title : String
  description : String
  status : String
  priority : String
  dueDate : Option Timestamp
  tags : List String
  isArchived : Bool
  createdAt : Timestamp
  updatedAt : Timestamp
  completedAt : Option Timestamp
deriving Repr, DecidableEq

/-- The state the repository operates on: the `tasks` collection plus
the abstract health of the storage connection (see module docstring). -/
structure Store where
  tasks : List Task
  connOk : Bool
deriving Repr, DecidableEq

/-- `Task.PrepareForCreate` from `internal/entities/task.go`: assigns a
fresh id and the owner, stamps both timestamps with `now`, forces
`isArchived := false` and defaults status/priority when they are the
empty string.  `freshId` stands for the `primitive.NewObjectID()`
result. -/
def PrepareForCreate (t : Task) (userID freshId : ObjectId) (now : Timestamp) : Task :=
  { t with
    id := freshId
    userID := userID
    createdAt := now
    updatedAt := now
    isArchived := false
    status := if t.status = "" then StatusPending else t.status
    priority := if t.priority = "" then PriorityMedium else t.priority }

/-- `Task.PrepareForUpdate`: refresh `updatedAt` only. -/
def PrepareForUpdate (t : Task) (now : Timestamp) : Task :=
  { t with updatedAt := now }

/-- The filter set of `repositories.TaskFilters` (part_006). Unset is
the empty string for `status`/`priority`/`search`, `none` for the
pointer-typed fields, and the empty list for `tags`. -/
structure TaskFilters where
  status : String
  priority : String
  tags : List String
  isArchived : Option Bool
  dueBefore : Option Timestamp
  dueAfter : Option Timestamp
  search : String
deriving Repr, DecidableEq

/-- The all-unset filter value. -/
def TaskFilters.none_ : TaskFilters :=
  { status := "", priority := "", tags := [], isArchived := none,
    dueBefore := none, dueAfter := none, search := "" }

/-- The statistics record of `repositories.TaskStats`. -/
structure TaskStats where
  total : Nat
  pending : Nat
  inProgress : Nat
  completed : Nat
  cancelled : Nat
  archived : Nat
  overdue : Nat
deriving Repr, DecidableEq

/-- Character-list prefix test (used to give semantics to the MongoDB
`$regex` substring match on literal patterns). -/
def chPre : List Char → List Char → Bool
  | [], _ => true
  | _ :: _, [] => false
  | a :: as, b :: bs => a == b && chPre as bs

/-- Character-list containment test: `pat` occurs contiguously in the list. -/
def chSub (pat : List Char) : List Char → Bool
  | [] => pat.isEmpty
  | c :: rest => chPre pat (c :: rest) || chSub pat rest

/-- Semantics of the `$regex` filter with option `"i"` that
`applyFilters` builds for the `search` field, on literal (metacharacter
free) patterns: case-insensitive contiguous substring containment. -/
def ciContains (hay pat : String) : Bool :=
  chSub pat.toLower.toList hay.toLower.toList

/-- Predicate denoted by the filter document `applyFilters` (part_006)
builds, clause by clause in source order; a clause whose filter field is
unset is absent from the document, i.e. `true`.  `tags` becomes a
`$in` clause (the array field matches if it contains ANY listed value),
the due-date bounds are `$lte` / `$gte` on the `due_date` field (a task
without a due date has no such field and matches neither bound), and
`search` is an `$or` of two case-insensitive regexes over title and
description. -/
def matchesFilters (f : TaskFilters) (t : Task) : Bool :=
  (if f.status = "" then true else t.status == f.status) &&
  (if f.priority = "" then true else t.priority == f.priority) &&
  (if f.tags.isEmpty then true else f.tags.any (fun tag => t.tags.contains tag)) &&
  (match f.isArchived with
   | none => true
   | some b => t.isArchived == b) &&
  (match f.dueBefore with
   | none => true
   | some bnd => match t.dueDate with
     | none => false
     | some d => d ≤ bnd) &&
  (match f.dueAfter with
   | none => true
   | some bnd => match t.dueDate with
     | none => false
     | some d => bnd ≤ d) &&
  (if f.search = "" then true
   else ciContains t.title f.search || ciContains t.description f.search)

/-- Insertion step for the `created_at` descending sort (`SetSort
{created_at: -1}`). -/
def insCreatedDesc (t : Task) : List Task → List Task
  | [] => [t]
  | u :: us => if u.createdAt ≤ t.createdAt then t :: u :: us else u :: insCreatedDesc t us

/-- Sort by `createdAt` descending, most recent first. -/
def sortByCreatedDesc (l : List Task) : List Task :=
  l.foldr insCreatedDesc []

/-- Sort key for the `due_date` ascending sort; every task the overdue
query returns has a due date, so the default is never observed there. -/
def dueKey (t : Task) : Timestamp :=
  t.dueDate.getD 0

/-- Insertion step for the `due_date` ascending sort (`SetSort
{due_date: 1}`). -/
def insDueAsc (t : Task) : List Task → List Task
  | [] => [t]
  | u :: us => if dueKey t ≤ dueKey u then t :: u :: us else u :: insDueAsc t us

/-- Sort by `dueDate` ascending, soonest first. -/
def sortByDueAsc (l : List Task) : List Task :=
  l.foldr insDueAsc []

/-- `UpdateOne` against the unique `_id` index: apply `f` to the first
(with unique ids: the only) task whose id matches, returning the new
collection and the matched count. -/
def updateFirst (f : Task → Task) (id : ObjectId) : List Task → List Task × Nat
  | [] => ([], 0)
  | t :: ts =>
    if t.id = id then (f t :: ts, 1)
    else
      let r := updateFirst f id ts
      (t :: r.1, r.2)

/-- `DeleteOne` against the unique `_id` index: remove the first task
whose id matches, returning the new collection and the deleted count. -/
def deleteFirst (id : ObjectId) : List Task → List Task × Nat
  | [] => ([], 0)
  | t :: ts =>
    if t.id = id then (ts, 1)
    else
      let r := deleteFirst id ts
      (t :: r.1, r.2)

/-- `todoRepository.Create` (part_006): insert the record; the driver
keeps a caller-supplied non-zero `_id` and generates `freshId` for the
zero (omitted) one, and `InsertedID` is written back into `todo.ID`.
The returned task is the (possibly id-updated) argument. -/
def Create (s : Store) (todo : Task) (freshId : ObjectId) :
    Except RepoError (Store × Task) :=
  if s.connOk then
    let t := if todo.id = 0 then { todo with id := freshId } else todo
    .ok ({ s with tasks := s.tasks ++ [t] }, t)
  else .error .persistence

/-- The base filter of `GetByUserID`: `{user_id: userID}` plus the
optional `applyFilters` clauses. -/
def userFilteredTasks (s : Store) (userID : ObjectId) (f : Option TaskFilters) :
    List Task :=
  s.tasks.filter (fun t =>
    t.userID == userID &&
    (match f with
     | none => true
     | some fl => matchesFilters fl t))

/-- `todoRepository.GetByUserID` (part_006): count the filtered set
(`CountDocuments` runs before pagination), then find with sort
`created_at` descending, `skip = (page-1)*limit` and `limit`.  `page`
and `limit` are `int64` in the source; the contract constrains them to
`page ≥ 1`, `limit > 0`, so they are modelled as naturals. -/
def GetByUserID (s : Store) (userID : ObjectId) (page limit : Nat)
    (f : Option TaskFilters) : Except RepoError (List Task × Nat) :=
  if s.connOk then
    let base := userFilteredTasks s userID f
    let total := base.length
    let skip := (page - 1) * limit
    .ok (((sortByCreatedDesc base).drop skip).take limit, total)
  else .error .persistence

/-- The `$set` document of `todoRepository.Update`: full-field replace
of the mutable fields onto the stored record; `_id`, `user_id` and
`created_at` are not in the document and keep their stored values. -/
def updateDoc (todo old : Task) : Task :=
  { old with
    title := todo.title
    description := todo.description
    status := todo.status
    priority := todo.priority
    dueDate := todo.dueDate
    tags := todo.tags
    isArchived := todo.isArchived
    updatedAt := todo.updatedAt
    completedAt := todo.completedAt }

/-- `todoRepository.Update` (part_006): `todo.PrepareForUpdate()` runs
first (mutating the caller's entity), then `UpdateOne` on `{_id:
todo.ID}`; a zero `MatchedCount` yields the not-found error.  The
second component is the caller's entity after the call (Go mutates it
through the pointer on every path). -/
def Update (s : Store) (todo0 : Task) (now : Timestamp) :
    Except RepoError Store × Task :=
  let todo := PrepareForUpdate todo0 now
  if s.connOk then
    let r := updateFirst (updateDoc todo) todo.id s.tasks
    if r.2 = 0 then (.error .notFound, todo)
    else (.ok { s with tasks := r.1 }, todo)
  else (.error .persistence, todo)

/-- `todoRepository.Delete` (part_006): `DeleteOne` on `{_id: id}`; a
zero `DeletedCount` yields the not-found error. -/
def Delete (s : Store) (id : ObjectId) : Except RepoError Store :=
  if s.connOk then
    let r := deleteFirst id s.tasks
    if r.2 = 0 then .error .notFound else .ok { s with tasks := r.1 }
  else .error .persistence

/-- The update document of `UpdateStatus` / `BulkUpdateStatus`: `$set`
status and `updated_at`, plus `$set completed_at = now` when the new
status is completed and `$unset completed_at` otherwise. -/
def applyStatus (status : String) (now : Timestamp) (t : Task) : Task :=
  { t with
    status := status
    updatedAt := now
    completedAt := if status = StatusCompleted then some now else none }

/-- `todoRepository.UpdateStatus` (part_006): `UpdateOne` on `{_id:
id}` with the `applyStatus` document; zero `MatchedCount` yields the
not-found error.  No validation of the status string is performed. -/
def UpdateStatus (s : Store) (id : ObjectId) (status : String) (now : Timestamp) :
    Except RepoError Store :=
  if s.connOk then
    let r := updateFirst (applyStatus status now) id s.tasks
    if r.2 = 0 then .error .notFound else .ok { s with tasks := r.1 }
  else .error .persistence

/-- `todoRepository.BulkUpdateStatus` (part_006): `UpdateMany` on
`{_id: {$in: ids}}` with the `applyStatus` document; returns
`ModifiedCount` — the number of matched documents the update actually
changed — and never errors on missing ids. -/
def BulkUpdateStatus (s : Store) (ids : List ObjectId) (status : String)
    (now : Timestamp) : Except RepoError (Store × Nat) :=
  if s.connOk then
    let f := applyStatus status now
    let ts := s.tasks.map (fun t => if ids.contains t.id then f t else t)
    let modified :=
      (s.tasks.filter (fun t => ids.contains t.id && decide (f t ≠ t))).length
    .ok ({ s with tasks := ts }, modified)
  else .error .persistence

/-- `todoRepository.BulkDelete` (part_006): `DeleteMany` on `{_id:
{$in: ids}}`; returns `DeletedCount` and never errors on missing ids. -/
def BulkDelete (s : Store) (ids : List ObjectId) : Except RepoError (Store × Nat) :=
  if s.connOk then
    .ok ({ s with tasks := s.tasks.filter (fun t => !ids.contains t.id) },
      (s.tasks.filter (fun t => ids.contains t.id)).length)
  else .error .persistence

/-- Number of tasks of a list with the given status (the per-status
count the `$group` by `$status` aggregation reports for that status
value; a status value with no tasks is absent from the aggregation
output and the Go map lookup then yields `0` — the same number). -/
def countStatus (l : List Task) (st : String) : Nat :=
  (l.filter (fun t => t.status == st)).length

/-- Whether the task's `due_date` field exists and is `$lt now`. -/
def hasDueBefore (t : Task) (now : Timestamp) : Bool :=
  match t.dueDate with
  | none => false
  | some d => d < now

/-- The overdue-count filter of `GetStatsByUser`: owner, `due_date <
now`, `status ≠ completed` — archived tasks are NOT excluded. -/
def overdueStatsPred (userID : ObjectId) (now : Timestamp) (t : Task) : Bool :=
  t.userID == userID && hasDueBefore t now && !(t.status == StatusCompleted)

/-- `todoRepository.GetStatsByUser` (part_006): one `$match`/`$group`
aggregation over the owner's tasks grouped by status (`total` sums the
group counts — over the distinct status values actually present), then
two `CountDocuments` calls for `archived` and `overdue`. -/
def GetStatsByUser (s : Store) (userID : ObjectId) (now : Timestamp) :
    Except RepoError TaskStats :=
  if s.connOk then
    let owned := s.tasks.filter (fun t => t.userID == userID)
    let distinctStatuses := (owned.map (fun t => t.status)).dedup
    .ok
      { total := (distinctStatuses.map (fun st => countStatus owned st)).sum
        pending := countStatus owned StatusPending
        inProgress := countStatus owned StatusInProgress
        completed := countStatus owned StatusCompleted
        cancelled := countStatus owned StatusCancelled
        archived := (s.tasks.filter (fun t => t.userID == userID && t.isArchived)).length
        overdue := (s.tasks.filter (overdueStatsPred userID now)).length }
  else .error .persistence

/-- The filter of `GetOverdueTodos`: owner, `due_date < now`, `status ≠
completed`, and — unlike the stats count — `is_archived = false`. -/
def overdueListPred (userID : ObjectId) (now : Timestamp) (t : Task) : Bool :=
  t.userID == userID && hasDueBefore t now && !(t.status == StatusCompleted) &&
    t.isArchived == false

/-- `todoRepository.GetOverdueTodos` (part_006): find with the overdue
list filter, sorted by `due_date` ascending. -/
def GetOverdueTodos (s : Store) (userID : ObjectId) (now : Timestamp) :
    Except RepoError (List Task) :=
  if s.connOk then
    .ok (sortByDueAsc (s.tasks.filter (overdueListPred userID now)))
  else .error .persistence

/-- Modelled from the spec: the service/handler layer that invokes
`Task.PrepareForCreate` before handing the entity to the repository's
`Create` is not present under the repository sources; the spec states
"`Create(task)`: assigns identity via `PrepareForCreate`, persists
atomically, returns the assigned id."  Both composed functions are
embedded from the source; only this glue follows the spec's words. -/
def createTask (s : Store) (t : Task) (owner freshId : ObjectId) (now : Timestamp) :
    Except RepoError (Store × Task) :=
  Create s (PrepareForCreate t owner freshId now) freshId

/-- Concrete fixture: an owner-1 pending task with a due date and two
tags, used by closed witnesses and counterexamples. -/
def cTask1 : Task :=
  { id := 10, userID := 1, title := "Alpha task", description := "first one",
    status := StatusPending, priority := PriorityMedium, dueDate := some 3,
    tags := ["urgent-tag", "other"], isArchived := false,
    createdAt := 1, updatedAt := 1, completedAt := none }

/-- Concrete fixture: an owner-2 completed task. -/
def cTask2 : Task :=
  { id := 11, userID := 2, title := "Beta", description := "second",
    status := StatusCompleted, priority := PriorityHigh, dueDate := some 2,
    tags := ["other"], isArchived := false,
    createdAt := 2, updatedAt := 2, completedAt := some 4 }

/-- Concrete fixture: an owner-1 archived task that is overdue. -/
def cTask3 : Task :=
  { id := 12, userID := 1, title := "Gamma", description := "third",
    status := StatusPending, priority := PriorityLow, dueDate := some 1,
    tags := [], isArchived := true,
    createdAt := 3, updatedAt := 3, completedAt := none }

/-- Concrete one-task healthy store. -/
def cStore1 : Store :=
  { tasks := [cTask1], connOk := true }

/-- The fixture task after an (unvalidated) transition to the
out-of-enum status string "bogus" at time 5. -/
def cTask1bogus : Task :=
  { cTask1 with status := "bogus", updatedAt := 5, completedAt := none }

/-- Concrete three-task healthy store with distinct ids and two owners. -/
def cStore2 : Store :=
  { tasks := [cTask1, cTask2, cTask3], connOk := true }

end TodoIt

namespace TodoIt

theorem insCreatedDesc_perm (t : Task) (l : List Task) :
    List.Perm (insCreatedDesc t l) (t :: l) := by
  induction l with
  | nil => rfl
  | cons u us ih =>
    rw [insCreatedDesc]
    by_cases h : u.createdAt ≤ t.createdAt
    · rw [if_pos h]
    · rw [if_neg h]
      exact (ih.cons u).trans (List.Perm.swap t u us)

theorem sortByCreatedDesc_perm (l : List Task) :
    List.Perm (sortByCreatedDesc l) l := by
  induction l with
  | nil => rfl
  | cons t ts ih =>
    exact (insCreatedDesc_perm t (sortByCreatedDesc ts)).trans (ih.cons t)

theorem mem_sortByCreatedDesc {x : Task} {l : List Task} :
    x ∈ sortByCreatedDesc l ↔ x ∈ l :=
  (sortByCreatedDesc_perm l).mem_iff

theorem length_sortByCreatedDesc (l : List Task) :
    (sortByCreatedDesc l).length = l.length :=
  (sortByCreatedDesc_perm l).length_eq

theorem insCreatedDesc_sorted {t : Task} {l : List Task}
    (h : l.Pairwise (fun a b => b.createdAt ≤ a.createdAt)) :
    (insCreatedDesc t l).Pairwise (fun a b => b.createdAt ≤ a.createdAt) := by
  induction l with
  | nil => simp [insCreatedDesc]
  | cons u us ih =>
    rcases List.pairwise_cons.mp h with ⟨hu, hus⟩
    rw [insCreatedDesc]
    by_cases hc : u.createdAt ≤ t.createdAt
    · rw [if_pos hc]
      refine List.pairwise_cons.mpr ⟨?_, h⟩
      intro x hx
      rcases List.mem_cons.mp hx with rfl | hx
      · exact hc
      · exact le_trans (hu x hx) hc
    · rw [if_neg hc]
      refine List.pairwise_cons.mpr ⟨?_, ih hus⟩
      intro x hx
      rcases List.mem_cons.mp ((insCreatedDesc_perm t us).mem_iff.mp hx) with rfl | h2
      · exact le_of_lt (lt_of_not_le hc)
      · exact hu x h2

theorem sortByCreatedDesc_sorted (l : List Task) :
    (sortByCreatedDesc l).Pairwise (fun a b => b.createdAt ≤ a.createdAt) := by
  induction l with
  | nil => simp [sortByCreatedDesc]
  | cons t ts ih => exact insCreatedDesc_sorted ih

theorem insDueAsc_perm (t : Task) (l : List Task) :
    List.Perm (insDueAsc t l) (t :: l) := by
  induction l with
  | nil => rfl
  | cons u us ih =>
    rw [insDueAsc]
    by_cases h : dueKey t ≤ dueKey u
    · rw [if_pos h]
    · rw [if_neg h]
      exact (ih.cons u).trans (List.Perm.swap t u us)

theorem sortByDueAsc_perm (l : List Task) : List.Perm (sortByDueAsc l) l := by
  induction l with
  | nil => rfl
  | cons t ts ih => exact (insDueAsc_perm t (sortByDueAsc ts)).trans (ih.cons t)

theorem mem_sortByDueAsc {x : Task} {l : List Task} :
    x ∈ sortByDueAsc l ↔ x ∈ l :=
  (sortByDueAsc_perm l).mem_iff

theorem length_sortByDueAsc (l : List Task) :
    (sortByDueAsc l).length = l.length :=
  (sortByDueAsc_perm l).length_eq

theorem insDueAsc_sorted {t : Task} {l : List Task}
    (h : l.Pairwise (fun a b => dueKey a ≤ dueKey b)) :
    (insDueAsc t l).Pairwise (fun a b => dueKey a ≤ dueKey b) := by
  induction l with
  | nil => simp [insDueAsc]
  | cons u us ih =>
    rcases List.pairwise_cons.mp h with ⟨hu, hus⟩
    rw [insDueAsc]
    by_cases hc : dueKey t ≤ dueKey u
    · rw [if_pos hc]
      refine List.pairwise_cons.mpr ⟨?_, h⟩
      intro x hx
      rcases List.mem_cons.mp hx with rfl | hx
      · exact hc
      · exact le_trans hc (hu x hx)
    · rw [if_neg hc]
      refine List.pairwise_cons.mpr ⟨?_, ih hus⟩
      intro x hx
      rcases List.mem_cons.mp ((insDueAsc_perm t us).mem_iff.mp hx) with rfl | h2
      · exact le_of_lt (lt_of_not_le hc)
      · exact hu x h2

theorem sortByDueAsc_sorted (l : List Task) :
    (sortByDueAsc l).Pairwise (fun a b => dueKey a ≤ dueKey b) := by
  induction l with
  | nil => simp [sortByDueAsc]
  | cons t ts ih => exact insDueAsc_sorted ih


theorem updateFirst_snd_eq_zero {f : Task → Task} {id : ObjectId} {l : List Task} :
    (updateFirst f id l).2 = 0 ↔ ∀ t ∈ l, t.id ≠ id := by
  induction l with
  | nil => simp [updateFirst]
  | cons u us ih =>
    by_cases h : u.id = id
    · simp [updateFirst, h]
    · simp [updateFirst, h, ih]

theorem updateFirst_mem {f : Task → Task} {id : ObjectId} {l : List Task} {x : Task}
    (hx : x ∈ (updateFirst f id l).1) :
    x ∈ l ∨ ∃ t ∈ l, t.id = id ∧ x = f t := by
  induction l with
  | nil => simp [updateFirst] at hx
  | cons u us ih =>
    by_cases h : u.id = id
    · rw [updateFirst, if_pos h] at hx
      rcases List.mem_cons.mp hx with rfl | hx2
      · exact Or.inr ⟨u, List.mem_cons_self u us, h, rfl⟩
      · exact Or.inl (List.mem_cons_of_mem u hx2)
    · rw [updateFirst, if_neg h] at hx
      rcases List.mem_cons.mp hx with rfl | hx2
      · exact Or.inl (List.mem_cons_self x us)
      · rcases ih hx2 with h1 | ⟨t, ht, hid, rfl⟩
        · exact Or.inl (List.mem_cons_of_mem u h1)
        · exact Or.inr ⟨t, List.mem_cons_of_mem u ht, hid, rfl⟩

theorem updateFirst_mem_of_ne {f : Task → Task} {id : ObjectId} {l : List Task} {t : Task}
    (ht : t ∈ l) (hne : t.id ≠ id) : t ∈ (updateFirst f id l).1 := by
  induction l with
  | nil => simp at ht
  | cons u us ih =>
    by_cases h : u.id = id
    · rw [updateFirst, if_pos h]
      rcases List.mem_cons.mp ht with rfl | ht2
      · exact absurd h hne
      · exact List.mem_cons_of_mem _ ht2
    · rw [updateFirst, if_neg h]
      rcases List.mem_cons.mp ht with rfl | ht2
      · exact List.mem_cons_self t _
      · exact List.mem_cons_of_mem u (ih ht2)

theorem updateFirst_mem_matched {f : Task → Task} {id : ObjectId} {l : List Task} {t : Task}
    (hnd : (l.map (fun t => t.id)).Nodup) (ht : t ∈ l) (hid : t.id = id) :
    f t ∈ (updateFirst f id l).1 := by
  induction l with
  | nil => simp at ht
  | cons u us ih =>
    rw [List.map_cons, List.nodup_cons] at hnd
    by_cases h : u.id = id
    · rw [updateFirst, if_pos h]
      rcases List.mem_cons.mp ht with rfl | ht2
      · exact List.mem_cons_self _ _
      · exact absurd (List.mem_map.mpr ⟨t, ht2, hid.trans h.symm⟩) hnd.1
    · rw [updateFirst, if_neg h]
      rcases List.mem_cons.mp ht with rfl | ht2
      · exact absurd hid h
      · exact List.mem_cons_of_mem u (ih hnd.2 ht2)

theorem deleteFirst_snd_eq_zero {id : ObjectId} {l : List Task} :
    (deleteFirst id l).2 = 0 ↔ ∀ t ∈ l, t.id ≠ id := by
  induction l with
  | nil => simp [deleteFirst]
  | cons u us ih =>
    by_cases h : u.id = id
    · simp [deleteFirst, h]
    · simp [deleteFirst, h, ih]

theorem deleteFirst_removes {id : ObjectId} {l : List Task}
    (hnd : (l.map (fun t => t.id)).Nodup) :
    ∀ t ∈ (deleteFirst id l).1, t.id ≠ id := by
  induction l with
  | nil => simp [deleteFirst]
  | cons u us ih =>
    rw [List.map_cons, List.nodup_cons] at hnd
    by_cases h : u.id = id
    · rw [deleteFirst, if_pos h]
      intro t ht hid
      exact hnd.1 (List.mem_map.mpr ⟨t, ht, hid.trans h.symm⟩)
    · rw [deleteFirst, if_neg h]
      intro t ht
      rcases List.mem_cons.mp ht with rfl | ht2
      · exact h
      · exact ih hnd.2 t ht2

theorem chPre_iff {p l : List Char} : chPre p l = true ↔ ∃ post, l = p ++ post := by
  induction p generalizing l with
  | nil => simp [chPre]
  | cons a as ih =>
    cases l with
    | nil => simp [chPre]
    | cons b bs =>
      rw [chPre]
      simp only [Bool.and_eq_true, beq_iff_eq, ih, List.cons_append, List.cons.injEq]
      constructor
      · rintro ⟨rfl, post, rfl⟩
        exact ⟨post, rfl, rfl⟩
      · rintro ⟨post, rfl, rfl⟩
        exact ⟨rfl, post, rfl⟩

theorem chSub_iff {p l : List Char} : chSub p l = true ↔ ∃ pre post, l = pre ++ p ++ post := by
  induction l with
  | nil =>
    rw [chSub]
    simp only [List.isEmpty_iff]
    constructor
    · rintro rfl
      exact ⟨[], [], rfl⟩
    · rintro ⟨pre, post, hp⟩
      rcases List.append_eq_nil.mp hp.symm with ⟨h1, h2⟩
      exact (List.append_eq_nil.mp h1).2
  | cons c rest ih =>
    rw [chSub]
    simp only [Bool.or_eq_true, chPre_iff, ih]
    constructor
    · rintro (⟨post, hp⟩ | ⟨pre, post, hp⟩)
      · exact ⟨[], post, by simpa using hp⟩
      · exact ⟨c :: pre, post, by simp [hp]⟩
    · rintro ⟨pre, post, hp⟩
      cases pre with
      | nil => exact Or.inl ⟨post, by simpa using hp⟩
      | cons d pre2 =>
        simp only [List.cons_append, List.cons.injEq] at hp
        exact Or.inr ⟨pre2, post, hp.2⟩

theorem ciContains_iff (hay pat : String) :
    ciContains hay pat = true ↔
      ∃ pre post, hay.toLower.toList = pre ++ pat.toLower.toList ++ post :=
  chSub_iff

theorem length_filter_mono {α : Type} {p q : α → Bool} {l : List α}
    (h : ∀ x ∈ l, p x = true → q x = true) :
    (l.filter p).length ≤ (l.filter q).length := by
  induction l with
  | nil => simp
  | cons a as ih =>
    have has : ∀ x ∈ as, p x = true → q x = true :=
      fun x hx => h x (List.mem_cons_of_mem a hx)
    have ha := h a (List.mem_cons_self a as)
    rw [List.filter_cons, List.filter_cons]
    by_cases hp : p a = true
    · rw [if_pos hp, if_pos (ha hp)]
      simpa using ih has
    · rw [if_neg hp]
      by_cases hq : q a = true
      · rw [if_pos hq]
        exact le_trans (ih has) (by simp)
      · rw [if_neg hq]
        exact ih has

theorem length_filter_lt {α : Type} {p q : α → Bool} {l : List α}
    (h : ∀ x ∈ l, p x = true → q x = true)
    (hx : ∃ x ∈ l, q x = true ∧ p x = false) :
    (l.filter p).length < (l.filter q).length := by
  induction l with
  | nil => simp at hx
  | cons a as ih =>
    have has : ∀ x ∈ as, p x = true → q x = true :=
      fun x hxm => h x (List.mem_cons_of_mem a hxm)
    rw [List.filter_cons, List.filter_cons]
    rcases hx with ⟨x, hxm, hqx, hpx⟩
    rcases List.mem_cons.mp hxm with rfl | hxm2
    · rw [if_neg (by simp [hpx]), if_pos hqx]
      exact Nat.lt_succ_of_le (length_filter_mono has)
    · have hlt := ih has ⟨x, hxm2, hqx, hpx⟩
      by_cases hp : p a = true
      · rw [if_pos hp, if_pos (h a (List.mem_cons_self a as) hp)]
        simpa using hlt
      · rw [if_neg hp]
        by_cases hq : q a = true
        · rw [if_pos hq]
          exact lt_trans hlt (by simp)
        · rw [if_neg hq]
          exact hlt

theorem nodup_subset_length_le {α : Type} [DecidableEq α] {m n : List α}
    (hnd : m.Nodup) (hsub : m ⊆ n) : m.length ≤ n.length :=
  (hnd.subperm hsub).length_le

theorem countStatus_eq_count (l : List Task) (st : String) :
    countStatus l st = (l.map (fun t => t.status)).count st := by
  unfold countStatus
  induction l with
  | nil => rfl
  | cons t ts ih =>
    rw [List.filter_cons, List.map_cons, List.count_cons, ← ih]
    by_cases h : t.status = st
    · simp [h]
    · simp [h, fun e : st = t.status => h e.symm]

theorem sum_countStatus_dedup (l : List Task) :
    (((l.map (fun t => t.status)).dedup).map (fun st => countStatus l st)).sum
      = l.length := by
  have h1 : ((l.map (fun t => t.status)).dedup).map (fun st => countStatus l st)
      = ((l.map (fun t => t.status)).dedup).map
          (fun st => (l.map (fun t => t.status)).count st) :=
    List.map_congr_left (fun st _ => countStatus_eq_count l st)
  rw [h1, List.sum_map_count_dedup_eq_length, List.length_map]

theorem length_eq_sum_four_counts {l : List Task}
    (h : ∀ t ∈ l, t.status ∈ GetAllStatuses) :
    l.length = countStatus l StatusPending + countStatus l StatusInProgress +
      countStatus l StatusCompleted + countStatus l StatusCancelled := by
  induction l with
  | nil => simp [countStatus]
  | cons t ts ih =>
    have ht := h t (List.mem_cons_self t ts)
    have hts : ∀ x ∈ ts, x.status ∈ GetAllStatuses :=
      fun x hx => h x (List.mem_cons_of_mem t hx)
    have ihts := ih hts
    simp only [GetAllStatuses, StatusPending, StatusInProgress, StatusCompleted,
      StatusCancelled, List.mem_cons, List.not_mem_nil, or_false] at ht
    simp only [countStatus, List.filter_cons] at ihts ⊢
    rcases ht with h1 | h1 | h1 | h1
    · rw [if_pos (by rw [h1]; decide), if_neg (by rw [h1]; decide),
        if_neg (by rw [h1]; decide), if_neg (by rw [h1]; decide)]
      simp only [List.length_cons]
      omega
    · rw [if_neg (by rw [h1]; decide), if_pos (by rw [h1]; decide),
        if_neg (by rw [h1]; decide), if_neg (by rw [h1]; decide)]
      simp only [List.length_cons]
      omega
    · rw [if_neg (by rw [h1]; decide), if_neg (by rw [h1]; decide),
        if_pos (by rw [h1]; decide), if_neg (by rw [h1]; decide)]
      simp only [List.length_cons]
      omega
    · rw [if_neg (by rw [h1]; decide), if_neg (by rw [h1]; decide),
        if_neg (by rw [h1]; decide), if_pos (by rw [h1]; decide)]
      simp only [List.length_cons]
      omega

theorem hasDueBefore_iff {t : Task} {now : Timestamp} :
    hasDueBefore t now = true ↔ ∃ d, t.dueDate = some d ∧ d < now := by
  cases h : t.dueDate <;> simp [hasDueBefore, h]

theorem filter_keep_of_imp {l : List Task} {p q : Task → Bool}
    (h : ∀ t, q t = true → p t = true) :
    (l.filter p).filter q = l.filter q := by
  induction l with
  | nil => rfl
  | cons a as ih =>
    by_cases hq : q a = true
    · rw [List.filter_cons, if_pos (h a hq), List.filter_cons, if_pos hq,
        List.filter_cons, if_pos hq, ih]
    · by_cases hp : p a = true
      · rw [List.filter_cons, if_pos hp, List.filter_cons, if_neg hq,
          List.filter_cons, if_neg hq, ih]
      · rw [List.filter_cons, if_neg hp, List.filter_cons, if_neg hq, ih]

theorem filter_contains_length_le {l : List Task} {ids : List ObjectId}
    (hnd : (l.map (fun t => t.id)).Nodup) :
    (l.filter (fun t => ids.contains t.id)).length ≤ ids.length := by
  have hsub : (l.filter (fun t => ids.contains t.id)).map (fun t => t.id) ⊆ ids := by
    intro x hx
    rcases List.mem_map.mp hx with ⟨t, ht, rfl⟩
    have h2 := List.of_mem_filter ht
    simpa using h2
  have hnd2 : ((l.filter (fun t => ids.contains t.id)).map (fun t => t.id)).Nodup :=
    hnd.sublist ((l.filter_sublist).map (fun t => t.id))
  calc (l.filter (fun t => ids.contains t.id)).length
      = ((l.filter (fun t => ids.contains t.id)).map (fun t => t.id)).length := by
        rw [List.length_map]
    _ ≤ ids.length := nodup_subset_length_le hnd2 hsub

/-- C5: the optional filters are AND-combined and independent: exact
match on status and priority, ANY-of membership on tags, exact boolean
match on isArchived, inclusive dueDate bounds (both may be supplied
together), and case-insensitive substring search over title OR
description; additionally the tag scenario: `tags=["urgent-tag"]`
matches a task tagged `["urgent-tag","other"]` but not one tagged only
`["other"]`. -/
theorem C5_filter_semantics :
    (∀ (f : TaskFilters) (t : Task), matchesFilters f t = true ↔
      ((f.status = "" ∨ t.status = f.status) ∧
       (f.priority = "" ∨ t.priority = f.priority) ∧
       (f.tags = [] ∨ ∃ tag ∈ f.tags, tag ∈ t.tags) ∧
       (∀ b, f.isArchived = some b → t.isArchived = b) ∧
       (∀ bnd, f.dueBefore = some bnd → ∃ d, t.dueDate = some d ∧ d ≤ bnd) ∧
       (∀ bnd, f.dueAfter = some bnd → ∃ d, t.dueDate = some d ∧ bnd ≤ d) ∧
       (f.search = "" ∨
         (∃ pre post, t.title.toLower.toList = pre ++ f.search.toLower.toList ++ post) ∨
         (∃ pre post,
           t.description.toLower.toList = pre ++ f.search.toLower.toList ++ post)))) ∧
    matchesFilters { TaskFilters.none_ with tags := ["urgent-tag"] } cTask1 = true ∧
    matchesFilters { TaskFilters.none_ with tags := ["urgent-tag"] } cTask2 = false := by
  refine ⟨?_, by decide, by decide⟩
  intro f t
  simp only [matchesFilters, Bool.and_eq_true, and_assoc]
  refine and_congr ?_ (and_congr ?_ (and_congr ?_ (and_congr ?_ (and_congr ?_
    (and_congr ?_ ?_)))))
  · by_cases h : f.status = "" <;> simp [h]
  · by_cases h : f.priority = "" <;> simp [h]
  · by_cases h : f.tags = []
    · simp [h]
    · rw [if_neg (by simpa [List.isEmpty_iff] using h)]
      simp [h, List.any_eq_true]
  · cases h : f.isArchived <;> simp [h]
  · cases h : f.dueBefore with
    | none => simp [h]
    | some bnd => cases hd : t.dueDate <;> simp [h, hd]
  · cases h : f.dueAfter with
    | none => simp [h]
    | some bnd => cases hd : t.dueDate <;> simp [h, hd]
  · by_cases h : f.search = ""
    · simp [h]
    · rw [if_neg h]
      simp only [h, false_or, Bool.or_eq_true, ciContains_iff]

/-- C4: for every owner, page ≥ 1, limit > 0 and filter set,
GetByUserID returns at most `limit` tasks starting at offset
`(page-1)*limit` of the createdAt-descending ordering of the filtered
set; the returned total is the full filtered count before pagination,
independent of page and limit; a skip beyond the filtered count yields
an empty task sequence with the total still correct. -/
theorem C4_pagination (s : Store) (u : ObjectId) (page limit : Nat)
    (f : Option TaskFilters) (hconn : s.connOk = true)
    (hpage : 1 ≤ page) (hlimit : 0 < limit) :
    ∃ tasks total, GetByUserID s u page limit f = .ok (tasks, total) ∧
      tasks = ((sortByCreatedDesc (userFilteredTasks s u f)).drop
        ((page - 1) * limit)).take limit ∧
      tasks.length ≤ limit ∧
      total = (userFilteredTasks s u f).length ∧
      (∀ page2 limit2, GetByUserID s u page2 limit2 f =
        .ok (((sortByCreatedDesc (userFilteredTasks s u f)).drop
          ((page2 - 1) * limit2)).take limit2, total)) ∧
      ((userFilteredTasks s u f).length ≤ (page - 1) * limit → tasks = []) ∧
      tasks.Pairwise (fun a b => b.createdAt ≤ a.createdAt) := by
  refine ⟨((sortByCreatedDesc (userFilteredTasks s u f)).drop
      ((page - 1) * limit)).take limit,
    (userFilteredTasks s u f).length, ?_, rfl, ?_, rfl, ?_, ?_, ?_⟩
  · rw [GetByUserID, hconn]
    rfl
  · exact List.length_take_le limit _
  · intro page2 limit2
    rw [GetByUserID, hconn]
    rfl
  · intro hskip
    have h1 : (sortByCreatedDesc (userFilteredTasks s u f)).length ≤
        (page - 1) * limit := by
      rw [length_sortByCreatedDesc]
      exact hskip
    rw [List.drop_eq_nil_of_le h1, List.take_nil]
  · exact ((sortByCreatedDesc_sorted (userFilteredTasks s u f)).sublist
      ((List.take_sublist _ _).trans (List.drop_sublist _ _)))

/-- Witness for C4 at a concrete store, page and limit. -/
theorem C4_pagination_witness :
    ∃ tasks total, GetByUserID cStore2 1 2 5 none = .ok (tasks, total) ∧
      tasks = ((sortByCreatedDesc (userFilteredTasks cStore2 1 none)).drop 5).take 5 ∧
      tasks.length ≤ 5 ∧
      total = (userFilteredTasks cStore2 1 none).length ∧
      (∀ page2 limit2, GetByUserID cStore2 1 page2 limit2 none =
        .ok (((sortByCreatedDesc (userFilteredTasks cStore2 1 none)).drop
          ((page2 - 1) * limit2)).take limit2, total)) ∧
      ((userFilteredTasks cStore2 1 none).length ≤ 5 → tasks = []) ∧
      tasks.Pairwise (fun a b => b.createdAt ≤ a.createdAt) :=
  C4_pagination cStore2 1 2 5 none rfl (by decide) (by decide)

/-- C1 (amended): the query operations are owner-scoped — GetByUserID
and GetOverdueTodos only return tasks of the requesting owner, and
GetStatsByUser depends only on the owner's tasks (removing every other
owner's task from the store leaves its result unchanged).  The mutation
operations, by contrast, are scoped by task id only (see the
counterexample). -/
theorem C1_query_owner_scoping :
    (∀ s u page limit f tasks total,
      GetByUserID s u page limit f = .ok (tasks, total) →
        ∀ t ∈ tasks, t.userID = u) ∧
    (∀ s u now ts, GetOverdueTodos s u now = .ok ts → ∀ t ∈ ts, t.userID = u) ∧
    (∀ s u now, GetStatsByUser s u now =
      GetStatsByUser { s with tasks := s.tasks.filter (fun t => t.userID == u) } u now) := by
  refine ⟨?_, ?_, ?_⟩
  · intro s u page limit f tasks total h t ht
    rw [GetByUserID] at h
    by_cases hc : s.connOk = true
    · rw [if_pos hc] at h
      have htasks := (Except.ok.injEq _ _).mp h
      have ht2 : t ∈ (sortByCreatedDesc (userFilteredTasks s u f)).drop
          ((page - 1) * limit) := by
        apply List.mem_of_mem_take
        rw [← (Prod.mk.injEq _ _ _ _).mp htasks |>.1] at ht
        exact ht
      have ht3 := mem_sortByCreatedDesc.mp (List.mem_of_mem_drop ht2)
      have := List.of_mem_filter ht3
      simp only [Bool.and_eq_true, beq_iff_eq] at this
      exact this.1
    · rw [if_neg hc] at h
      exact absurd h (by simp)
  · intro s u now ts h t ht
    rw [GetOverdueTodos] at h
    by_cases hc : s.connOk = true
    · rw [if_pos hc] at h
      have hts := (Except.ok.injEq _ _).mp h
      rw [← hts] at ht
      have ht2 := mem_sortByDueAsc.mp ht
      have := List.of_mem_filter ht2
      simp only [overdueListPred, Bool.and_eq_true, beq_iff_eq] at this
      exact this.1.1.1
    · rw [if_neg hc] at h
      exact absurd h (by simp)
  · intro s u now
    rw [GetStatsByUser, GetStatsByUser]
    by_cases hc : s.connOk = true
    · rw [if_pos hc, if_pos hc]
      have howned : (s.tasks.filter (fun t => t.userID == u)).filter
          (fun t => t.userID == u) = s.tasks.filter (fun t => t.userID == u) :=
        filter_keep_of_imp (fun t h => h)
      have harch : (s.tasks.filter (fun t => t.userID == u)).filter
          (fun t => t.userID == u && t.isArchived)
          = s.tasks.filter (fun t => t.userID == u && t.isArchived) :=
        filter_keep_of_imp (fun t h => by
          simp only [Bool.and_eq_true] at h
          exact h.1)
      have hover : (s.tasks.filter (fun t => t.userID == u)).filter
          (overdueStatsPred u now) = s.tasks.filter (overdueStatsPred u now) :=
        filter_keep_of_imp (fun t h => by
          simp only [overdueStatsPred, Bool.and_eq_true] at h
          exact h.1.1)
      simp only [howned, harch, hover]
    · rw [if_neg hc, if_neg hc]

/-- Witness for C1: the owner-1 query over the two-owner store returns
only owner-1 tasks; here its first result is owner 1's. -/
theorem C1_query_owner_scoping_witness : cTask3.userID = 1 := by
  have h := C1_query_owner_scoping.1 cStore2 1 1 5 none
    [cTask3, cTask1] 2 rfl
  exact h cTask3 (List.mem_cons_self _ _)

/-- C1 counterexample: the claim also asserts that the mutations never
modify a task whose owner differs from the requesting owner, but
Delete (like Update, UpdateStatus and the bulk operations) filters by
`_id` alone: deleting id 10 from a store holding owner 1's task removes
that task although the requesting owner is 2. -/
theorem C1_mutation_counterexample :
    ¬ (∀ (owner : ObjectId) s2, Delete cStore1 10 = .ok s2 →
        ∀ t ∈ cStore1.tasks, t ∉ s2.tasks → t.userID = owner) := by
  intro h
  have h2 := h 2 { tasks := [], connOk := true } rfl cTask1
    (List.mem_cons_self _ _) (by simp)
  exact absurd h2 (by decide)

/-- C7: GetOverdueTodos returns exactly the owner's tasks with a due
date in the past, status not completed and not archived, sorted
ascending by due date; the overdue count of GetStatsByUser uses the
same predicate without the archived exclusion, so the list's length is
at most the stats count, and strictly below it whenever an archived
overdue task of the owner exists. -/
theorem C7_overdue_views (s : Store) (u : ObjectId) (now : Timestamp)
    (hconn : s.connOk = true) :
    ∃ ts stats, GetOverdueTodos s u now = .ok ts ∧
      GetStatsByUser s u now = .ok stats ∧
      (∀ t, t ∈ ts ↔ (t ∈ s.tasks ∧ t.userID = u ∧
        (∃ d, t.dueDate = some d ∧ d < now) ∧
        t.status ≠ StatusCompleted ∧ t.isArchived = false)) ∧
      ts.Pairwise (fun a b => dueKey a ≤ dueKey b) ∧
      stats.overdue = (s.tasks.filter (overdueStatsPred u now)).length ∧
      ts.length ≤ stats.overdue ∧
      ((∃ t ∈ s.tasks, t.userID = u ∧ hasDueBefore t now = true ∧
          t.status ≠ StatusCompleted ∧ t.isArchived = true) →
        ts.length < stats.overdue) := by
  have hpred : ∀ t : Task, overdueListPred u now t = true →
      overdueStatsPred u now t = true := by
    intro t h
    simp only [overdueListPred, Bool.and_eq_true] at h
    simp only [overdueStatsPred, Bool.and_eq_true]
    exact h.1
  refine ⟨sortByDueAsc (s.tasks.filter (overdueListPred u now)), _,
    by rw [GetOverdueTodos, if_pos hconn], by rw [GetStatsByUser, if_pos hconn],
    ?_, sortByDueAsc_sorted _, rfl, ?_, ?_⟩
  · intro t
    rw [mem_sortByDueAsc, List.mem_filter]
    simp only [overdueListPred, Bool.and_eq_true, beq_iff_eq, hasDueBefore_iff,
      Bool.not_eq_true', beq_eq_false_iff_ne, ne_eq, and_assoc]
  · rw [(sortByDueAsc_perm _).length_eq]
    exact length_filter_mono (fun t _ => hpred t)
  · rintro ⟨t, htm, h1, h2, h3, h4⟩
    rw [(sortByDueAsc_perm _).length_eq]
    apply length_filter_lt (fun t _ => hpred t)
    refine ⟨t, htm, ?_, ?_⟩
    · simp only [overdueStatsPred, Bool.and_eq_true, beq_iff_eq]
      refine ⟨⟨h1, h2⟩, ?_⟩
      simpa using h3
    · simp only [overdueListPred, h4]
      simp

/-- Witness for C7 at the concrete two-owner store, in which owner 1
has one live overdue task and one archived overdue task. -/
theorem C7_overdue_views_witness :
    ∃ ts stats, GetOverdueTodos cStore2 1 5 = .ok ts ∧
      GetStatsByUser cStore2 1 5 = .ok stats ∧
      (∀ t, t ∈ ts ↔ (t ∈ cStore2.tasks ∧ t.userID = 1 ∧
        (∃ d, t.dueDate = some d ∧ d < 5) ∧
        t.status ≠ StatusCompleted ∧ t.isArchived = false)) ∧
      ts.Pairwise (fun a b => dueKey a ≤ dueKey b) ∧
      stats.overdue = (cStore2.tasks.filter (overdueStatsPred 1 5)).length ∧
      ts.length ≤ stats.overdue ∧
      ((∃ t ∈ cStore2.tasks, t.userID = 1 ∧ hasDueBefore t 5 = true ∧
          t.status ≠ StatusCompleted ∧ t.isArchived = true) →
        ts.length < stats.overdue) :=
  C7_overdue_views cStore2 1 5 rfl

/-- C6: GetStatsByUser groups all of the owner's tasks by status in
one pass, total being the sum across all status buckets (archived and
non-archived alike); whenever the owner's stored statuses are among the
four enumerated values — the only ones the documented API produces —
total equals pending + inProgress + completed + cancelled. -/
theorem C6_stats_total (s : Store) (u : ObjectId) (now : Timestamp)
    (hconn : s.connOk = true)
    (hvalid : ∀ t ∈ s.tasks, t.userID = u → t.status ∈ GetAllStatuses) :
    ∃ stats, GetStatsByUser s u now = .ok stats ∧
      stats.total = (s.tasks.filter (fun t => t.userID == u)).length ∧
      stats.total = stats.pending + stats.inProgress + stats.completed +
        stats.cancelled := by
  have howned : ∀ t ∈ s.tasks.filter (fun t => t.userID == u),
      t.status ∈ GetAllStatuses := by
    intro t ht
    have h1 := List.mem_of_mem_filter ht
    have h2 := List.of_mem_filter ht
    exact hvalid t h1 (by simpa using h2)
  refine ⟨_, by rw [GetStatsByUser, if_pos hconn], ?_, ?_⟩
  · exact sum_countStatus_dedup _
  · rw [sum_countStatus_dedup]
    exact length_eq_sum_four_counts howned

/-- Witness for C6 at the concrete two-owner store. -/
theorem C6_stats_total_witness :
    ∃ stats, GetStatsByUser cStore2 1 5 = .ok stats ∧
      stats.total = (cStore2.tasks.filter (fun t => t.userID == 1)).length ∧
      stats.total = stats.pending + stats.inProgress + stats.completed +
        stats.cancelled :=
  C6_stats_total cStore2 1 5 rfl (by decide)

/-- C3: with healthy storage, each single-record mutation fails with
the not-found error exactly when zero records matched (in particular a
second Delete of the same id errors), while the bulk operations never
fail for missing ids and return the count of records actually
modified/removed, at most the number of ids supplied. -/
theorem C3_match_count_errors (s : Store) (hconn : s.connOk = true)
    (hnd : (s.tasks.map (fun t => t.id)).Nodup) :
    (∀ todo now,
      ((∀ t ∈ s.tasks, t.id ≠ todo.id) → (Update s todo now).1 = .error .notFound) ∧
      ((∃ t ∈ s.tasks, t.id = todo.id) → ∃ s2, (Update s todo now).1 = .ok s2)) ∧
    (∀ id,
      ((∀ t ∈ s.tasks, t.id ≠ id) → Delete s id = .error .notFound) ∧
      ((∃ t ∈ s.tasks, t.id = id) → ∃ s2, Delete s id = .ok s2)) ∧
    (∀ id st now,
      ((∀ t ∈ s.tasks, t.id ≠ id) → UpdateStatus s id st now = .error .notFound) ∧
      ((∃ t ∈ s.tasks, t.id = id) → ∃ s2, UpdateStatus s id st now = .ok s2)) ∧
    (∀ ids st now, ∃ s2 n, BulkUpdateStatus s ids st now = .ok (s2, n) ∧
      n ≤ ids.length) ∧
    (∀ ids, ∃ s2 n, BulkDelete s ids = .ok (s2, n) ∧
      n = (s.tasks.filter (fun t => ids.contains t.id)).length ∧ n ≤ ids.length) ∧
    (∀ id s2, Delete s id = .ok s2 → Delete s2 id = .error .notFound) := by
  refine ⟨?_, ?_, ?_, ?_, ?_, ?_⟩
  · intro todo now
    constructor
    · intro hmiss
      have h0 : (updateFirst (updateDoc (PrepareForUpdate todo now))
          (PrepareForUpdate todo now).id s.tasks).2 = 0 :=
        updateFirst_snd_eq_zero.mpr (fun t ht => hmiss t ht)
      simp only [Update]
      rw [if_pos hconn, if_pos h0]
    · rintro ⟨t, htm, htid⟩
      have h0 : ¬ (updateFirst (updateDoc (PrepareForUpdate todo now))
          (PrepareForUpdate todo now).id s.tasks).2 = 0 := by
        rw [updateFirst_snd_eq_zero]
        push_neg
        exact ⟨t, htm, htid⟩
      refine ⟨{ s with tasks := (updateFirst (updateDoc (PrepareForUpdate todo now))
          (PrepareForUpdate todo now).id s.tasks).1 }, ?_⟩
      simp only [Update]
      rw [if_pos hconn, if_neg h0]
  · intro id
    constructor
    · intro hmiss
      have h0 : (deleteFirst id s.tasks).2 = 0 := deleteFirst_snd_eq_zero.mpr hmiss
      rw [Delete, if_pos hconn, if_pos h0]
    · rintro ⟨t, htm, htid⟩
      have h0 : ¬ (deleteFirst id s.tasks).2 = 0 := by
        rw [deleteFirst_snd_eq_zero]
        push_neg
        exact ⟨t, htm, htid⟩
      exact ⟨{ s with tasks := (deleteFirst id s.tasks).1 },
        by rw [Delete, if_pos hconn, if_neg h0]⟩
  · intro id st now
    constructor
    · intro hmiss
      have h0 : (updateFirst (applyStatus st now) id s.tasks).2 = 0 :=
        updateFirst_snd_eq_zero.mpr hmiss
      rw [UpdateStatus, if_pos hconn, if_pos h0]
    · rintro ⟨t, htm, htid⟩
      have h0 : ¬ (updateFirst (applyStatus st now) id s.tasks).2 = 0 := by
        rw [updateFirst_snd_eq_zero]
        push_neg
        exact ⟨t, htm, htid⟩
      exact ⟨{ s with tasks := (updateFirst (applyStatus st now) id s.tasks).1 },
        by rw [UpdateStatus, if_pos hconn, if_neg h0]⟩
  · intro ids st now
    refine ⟨{ s with tasks := (s.tasks.map
        (fun t => if ids.contains t.id then applyStatus st now t else t)) },
      (s.tasks.filter (fun t => ids.contains t.id &&
        decide (applyStatus st now t ≠ t))).length, ?_, ?_⟩
    · simp only [BulkUpdateStatus]
      rw [if_pos hconn]
    · calc (s.tasks.filter (fun t => ids.contains t.id &&
            decide (applyStatus st now t ≠ t))).length
          ≤ (s.tasks.filter (fun t => ids.contains t.id)).length :=
            length_filter_mono (fun t _ h => by
              simp only [Bool.and_eq_true] at h
              exact h.1)
        _ ≤ ids.length := filter_contains_length_le hnd
  · intro ids
    refine ⟨{ s with tasks := s.tasks.filter (fun t => !ids.contains t.id) },
      (s.tasks.filter (fun t => ids.contains t.id)).length, ?_, rfl,
      filter_contains_length_le hnd⟩
    simp only [BulkDelete]
    rw [if_pos hconn]
  · intro id s2 h
    rw [Delete, if_pos hconn] at h
    by_cases h0 : (deleteFirst id s.tasks).2 = 0
    · rw [if_pos h0] at h
      exact absurd h (by simp)
    · rw [if_neg h0] at h
      have hs2 : { s with tasks := (deleteFirst id s.tasks).1 } = s2 :=
        (Except.ok.injEq _ _).mp h
      have hconn2 : s2.connOk = true := by rw [← hs2]; exact hconn
      have hrem : ∀ t ∈ s2.tasks, t.id ≠ id := by
        intro t ht
        apply deleteFirst_removes hnd
        rw [← hs2] at ht
        exact ht
      rw [Delete, if_pos hconn2, if_pos (deleteFirst_snd_eq_zero.mpr hrem)]

/-- Witness for C3: the spec's own scenario — a bulk status update over
one existing and one missing id succeeds with a modified count of at
most the two supplied ids. -/
theorem C3_match_count_errors_witness :
    ∃ s2 n, BulkUpdateStatus cStore2 [10, 99] StatusCompleted 7 = .ok (s2, n) ∧
      n ≤ 2 :=
  (C3_match_count_errors cStore2 rfl (by decide)).2.2.2.1 [10, 99] StatusCompleted 7

theorem updateStatus_ok_mem {s : Store} {id : ObjectId} {st : String}
    {now : Timestamp} {s2 : Store} (h : UpdateStatus s id st now = .ok s2) :
    ∀ t2 ∈ s2.tasks, t2 ∈ s.tasks ∨ ∃ t ∈ s.tasks, t2 = applyStatus st now t := by
  intro t2 ht2
  rw [UpdateStatus] at h
  by_cases hc : s.connOk = true
  · rw [if_pos hc] at h
    by_cases h0 : (updateFirst (applyStatus st now) id s.tasks).2 = 0
    · rw [if_pos h0] at h
      exact absurd h (by simp)
    · rw [if_neg h0] at h
      have hs2 : { s with tasks := (updateFirst (applyStatus st now) id s.tasks).1 }
          = s2 := (Except.ok.injEq _ _).mp h
      rw [← hs2] at ht2
      rcases updateFirst_mem ht2 with hold | ⟨t, htm, _, rfl⟩
      · exact Or.inl hold
      · exact Or.inr ⟨t, htm, rfl⟩
  · rw [if_neg hc] at h
    exact absurd h (by simp)

theorem bulkUpdateStatus_ok_mem {s : Store} {ids : List ObjectId} {st : String}
    {now : Timestamp} {s2 : Store} {n : Nat}
    (h : BulkUpdateStatus s ids st now = .ok (s2, n)) :
    ∀ t2 ∈ s2.tasks, t2 ∈ s.tasks ∨ ∃ t ∈ s.tasks, t2 = applyStatus st now t := by
  intro t2 ht2
  rw [BulkUpdateStatus] at h
  by_cases hc : s.connOk = true
  · rw [if_pos hc] at h
    have hs2 := ((Prod.mk.injEq _ _ _ _).mp ((Except.ok.injEq _ _).mp h)).1
    rw [← hs2] at ht2
    rcases List.mem_map.mp ht2 with ⟨t, htm, hteq⟩
    by_cases hin : ids.contains t.id
    · rw [if_pos hin] at hteq
      exact Or.inr ⟨t, htm, hteq.symm⟩
    · rw [if_neg hin] at hteq
      rw [← hteq]
      exact Or.inl htm
  · rw [if_neg hc] at h
    exact absurd h (by simp)

/-- C2: for every status transition via UpdateStatus or
BulkUpdateStatus the written record has status equal to the new status,
a refreshed updatedAt, completedAt set to the transition time exactly
when the new status is completed and cleared otherwise — so completedAt
is non-null iff the resulting status is completed; and a task whose
entity enters the create path with nil completedAt is persisted by
createTask with completedAt still nil. -/
theorem C2_completedAt_invariant :
    (∀ s id st now s2, UpdateStatus s id st now = .ok s2 →
      ∀ t2 ∈ s2.tasks, t2 ∈ s.tasks ∨
        (t2.status = st ∧ t2.updatedAt = now ∧
         (st = StatusCompleted → t2.completedAt = some now) ∧
         (st ≠ StatusCompleted → t2.completedAt = none) ∧
         (t2.completedAt.isSome = true ↔ t2.status = StatusCompleted))) ∧
    (∀ s id st now s2, (s.tasks.map (fun t => t.id)).Nodup →
      UpdateStatus s id st now = .ok s2 →
      ∀ t ∈ s.tasks, t.id = id → applyStatus st now t ∈ s2.tasks) ∧
    (∀ s ids st now s2 n, BulkUpdateStatus s ids st now = .ok (s2, n) →
      ∀ t2 ∈ s2.tasks, t2 ∈ s.tasks ∨
        (t2.status = st ∧ t2.updatedAt = now ∧
         (st = StatusCompleted → t2.completedAt = some now) ∧
         (st ≠ StatusCompleted → t2.completedAt = none) ∧
         (t2.completedAt.isSome = true ↔ t2.status = StatusCompleted))) ∧
    (∀ s ids st now s2 n, BulkUpdateStatus s ids st now = .ok (s2, n) →
      ∀ t ∈ s.tasks, t.id ∈ ids → applyStatus st now t ∈ s2.tasks) ∧
    (∀ t u fid now, t.completedAt = none →
      (PrepareForCreate t u fid now).completedAt = none) ∧
    (∀ s t u fid now s2 t2, t.completedAt = none →
      createTask s t u fid now = .ok (s2, t2) → t2.completedAt = none) := by
  have happly : ∀ (st : String) (now : Timestamp) (t : Task),
      (applyStatus st now t).status = st ∧ (applyStatus st now t).updatedAt = now ∧
      (st = StatusCompleted → (applyStatus st now t).completedAt = some now) ∧
      (st ≠ StatusCompleted → (applyStatus st now t).completedAt = none) ∧
      ((applyStatus st now t).completedAt.isSome = true ↔
        (applyStatus st now t).status = StatusCompleted) := by
    intro st now t
    by_cases h : st = StatusCompleted <;>
      simp [applyStatus, h]
  refine ⟨?_, ?_, ?_, ?_, ?_, ?_⟩
  · intro s id st now s2 h t2 ht2
    rw [UpdateStatus] at h
    by_cases hc : s.connOk = true
    · rw [if_pos hc] at h
      by_cases h0 : (updateFirst (applyStatus st now) id s.tasks).2 = 0
      · rw [if_pos h0] at h
        exact absurd h (by simp)
      · rw [if_neg h0] at h
        have hs2 : { s with tasks := (updateFirst (applyStatus st now) id s.tasks).1 }
            = s2 := (Except.ok.injEq _ _).mp h
        rw [← hs2] at ht2
        rcases updateFirst_mem ht2 with hold | ⟨t, _, _, rfl⟩
        · exact Or.inl hold
        · exact Or.inr (happly st now t)
    · rw [if_neg hc] at h
      exact absurd h (by simp)
  · intro s id st now s2 hnd h t htm htid
    rw [UpdateStatus] at h
    by_cases hc : s.connOk = true
    · rw [if_pos hc] at h
      by_cases h0 : (updateFirst (applyStatus st now) id s.tasks).2 = 0
      · rw [if_pos h0] at h
        exact absurd h (by simp)
      · rw [if_neg h0] at h
        have hs2 : { s with tasks := (updateFirst (applyStatus st now) id s.tasks).1 }
            = s2 := (Except.ok.injEq _ _).mp h
        rw [← hs2]
        exact updateFirst_mem_matched hnd htm htid
    · rw [if_neg hc] at h
      exact absurd h (by simp)
  · intro s ids st now s2 n h t2 ht2
    rw [BulkUpdateStatus] at h
    by_cases hc : s.connOk = true
    · rw [if_pos hc] at h
      have hs2 := ((Prod.mk.injEq _ _ _ _).mp ((Except.ok.injEq _ _).mp h)).1
      rw [← hs2] at ht2
      rcases List.mem_map.mp ht2 with ⟨t, htm, hteq⟩
      by_cases hin : ids.contains t.id
      · rw [if_pos hin] at hteq
        rw [← hteq]
        exact Or.inr (happly st now t)
      · rw [if_neg hin] at hteq
        rw [← hteq]
        exact Or.inl htm
    · rw [if_neg hc] at h
      exact absurd h (by simp)
  · intro s ids st now s2 n h t htm htid
    rw [BulkUpdateStatus] at h
    by_cases hc : s.connOk = true
    · rw [if_pos hc] at h
      have hs2 := ((Prod.mk.injEq _ _ _ _).mp ((Except.ok.injEq _ _).mp h)).1
      rw [← hs2]
      refine List.mem_map.mpr ⟨t, htm, ?_⟩
      rw [if_pos (by simpa using htid)]
    · rw [if_neg hc] at h
      exact absurd h (by simp)
  · intro t u fid now h
    simpa [PrepareForCreate] using h
  · intro s t u fid now s2 t2 h hcreate
    rw [createTask, Create] at hcreate
    by_cases hc : s.connOk = true
    · rw [if_pos hc] at hcreate
      have ht2 := ((Prod.mk.injEq _ _ _ _).mp ((Except.ok.injEq _ _).mp hcreate)).2
      by_cases hz : (PrepareForCreate t u fid now).id = 0
      · rw [if_pos hz] at ht2
        rw [← ht2]
        simpa [PrepareForCreate] using h
      · rw [if_neg hz] at ht2
        rw [← ht2]
        simpa [PrepareForCreate] using h
    · rw [if_neg hc] at hcreate
      exact absurd hcreate (by simp)

/-- Witness for C2: transitioning the pending fixture task to completed
stores it with completedAt set to the transition time. -/
theorem C2_completedAt_invariant_witness :
    applyStatus StatusCompleted 7 cTask1 ∈
      ({ tasks := [applyStatus StatusCompleted 7 cTask1, cTask2, cTask3],
         connOk := true } : Store).tasks :=
  C2_completedAt_invariant.2.1 cStore2 10 StatusCompleted 7
    { tasks := [applyStatus StatusCompleted 7 cTask1, cTask2, cTask3], connOk := true }
    (by decide) rfl cTask1 (List.mem_cons_self _ _) rfl

/-- C8: the create flow prepares the entity via PrepareForCreate — a
fresh non-zero id, the owner, createdAt = updatedAt = now, status
defaulting to pending and priority to medium when unset, isArchived
false — persists it by appending to the collection, hands the assigned
id back through the returned entity, and fails with the persistence
error on write failure. -/
theorem C8_create_flow (s : Store) (t : Task) (owner freshId : ObjectId)
    (now : Timestamp) (hfresh : freshId ≠ 0) :
    (s.connOk = true → ∃ s2 t2, createTask s t owner freshId now = .ok (s2, t2) ∧
      t2.id = freshId ∧ t2.userID = owner ∧ t2.createdAt = now ∧
      t2.updatedAt = now ∧ t2.isArchived = false ∧
      t2.status = (if t.status = "" then StatusPending else t.status) ∧
      t2.priority = (if t.priority = "" then PriorityMedium else t.priority) ∧
      s2.tasks = s.tasks ++ [t2] ∧ s2.connOk = true) ∧
    (s.connOk = false → createTask s t owner freshId now = .error .persistence) := by
  constructor
  · intro hconn
    have hid : (PrepareForCreate t owner freshId now).id = freshId := rfl
    have hz : ¬ (PrepareForCreate t owner freshId now).id = 0 := by
      rw [hid]
      exact hfresh
    refine ⟨{ s with tasks := s.tasks ++ [PrepareForCreate t owner freshId now] },
      PrepareForCreate t owner freshId now, ?_, rfl, rfl, rfl, rfl, rfl, rfl, rfl,
      rfl, hconn⟩
    rw [createTask, Create, if_pos hconn, if_neg hz]
  · intro hdown
    rw [createTask, Create, if_neg (by rw [hdown]; exact Bool.false_ne_true)]

/-- Witness for C8: creating from the fixture task with owner 7 and
fresh id 99 on the healthy store. -/
theorem C8_create_flow_witness :
    ∃ s2 t2, createTask cStore1 cTask2 7 99 8 = .ok (s2, t2) ∧
      t2.id = 99 ∧ t2.userID = 7 ∧ t2.createdAt = 8 ∧
      t2.updatedAt = 8 ∧ t2.isArchived = false ∧
      t2.status = (if cTask2.status = "" then StatusPending else cTask2.status) ∧
      t2.priority = (if cTask2.priority = "" then PriorityMedium else cTask2.priority) ∧
      s2.tasks = cStore1.tasks ++ [t2] ∧ s2.connOk = true :=
  (C8_create_flow cStore1 cTask2 7 99 8 (by decide)).1 rfl

/-- C9 counterexample: the core performs no status validation —
UpdateStatus with the out-of-enum string "bogus" succeeds (no
ValidationError-like rejection exists in the repository) and persists
the unknown status verbatim. -/
theorem C9_counterexample :
    UpdateStatus cStore1 10 "bogus" 5 =
      .ok { tasks := [cTask1bogus], connOk := true } ∧
    cTask1bogus.status = "bogus" ∧ "bogus" ∉ GetAllStatuses := by
  exact ⟨rfl, rfl, by decide⟩

/-- C9 (amended): the core does not validate enum values — UpdateStatus
and BulkUpdateStatus accept any status string, succeed whenever the id
matches regardless of the string's validity, and every record they
touch is stored with exactly the supplied status string; rejection of
invalid enums is left to the upstream (excluded) validation layer. -/
theorem C9_no_enum_validation :
    (∀ s id st now s2, UpdateStatus s id st now = .ok s2 →
      ∀ t2 ∈ s2.tasks, t2 ∈ s.tasks ∨ t2.status = st) ∧
    (∀ s ids st now s2 n, BulkUpdateStatus s ids st now = .ok (s2, n) →
      ∀ t2 ∈ s2.tasks, t2 ∈ s.tasks ∨ t2.status = st) ∧
    (∀ s id st now, s.connOk = true → (∃ t ∈ s.tasks, t.id = id) →
      ∃ s2, UpdateStatus s id st now = .ok s2) := by
  refine ⟨?_, ?_, ?_⟩
  · intro s id st now s2 h t2 ht2
    rcases updateStatus_ok_mem h t2 ht2 with hold | ⟨t, _, rfl⟩
    · exact Or.inl hold
    · exact Or.inr rfl
  · intro s ids st now s2 n h t2 ht2
    rcases bulkUpdateStatus_ok_mem h t2 ht2 with hold | ⟨t, _, rfl⟩
    · exact Or.inl hold
    · exact Or.inr rfl
  · intro s id st now hconn hex
    have h0 : ¬ (updateFirst (applyStatus st now) id s.tasks).2 = 0 := by
      rw [updateFirst_snd_eq_zero]
      push_neg
      exact hex
    exact ⟨{ s with tasks := (updateFirst (applyStatus st now) id s.tasks).1 },
      by rw [UpdateStatus, if_pos hconn, if_neg h0]⟩

/-- Witness for C9 (amended): the bogus-status update on the fixture
store succeeds and the touched record carries exactly "bogus". -/
theorem C9_no_enum_validation_witness :
    cTask1bogus ∈ cStore1.tasks ∨ cTask1bogus.status = "bogus" :=
  C9_no_enum_validation.1 cStore1 10 "bogus" 5
    { tasks := [cTask1bogus], connOk := true }
    rfl cTask1bogus (List.mem_cons_self _ _)

/-- C10: Update refreshes the caller entity's UpdatedAt via
PrepareForUpdate before the storage call, so when no stored record
matches the id the call returns the not-found error while the caller's
entity has already been mutated: its updatedAt is the call time and
every other field is unchanged. -/
theorem C10_update_mutates_on_error (s : Store) (todo : Task) (now : Timestamp)
    (hconn : s.connOk = true) (hmiss : ∀ t ∈ s.tasks, t.id ≠ todo.id) :
    (Update s todo now).1 = .error .notFound ∧
    (Update s todo now).2 = { todo with updatedAt := now } := by
  have h0 : (updateFirst (updateDoc (PrepareForUpdate todo now))
      (PrepareForUpdate todo now).id s.tasks).2 = 0 :=
    updateFirst_snd_eq_zero.mpr (fun t ht => hmiss t ht)
  constructor
  · simp only [Update]
    rw [if_pos hconn, if_pos h0]
  · simp only [Update]
    rw [if_pos hconn, if_pos h0]
    rfl

/-- Witness for C10: updating an entity whose id 77 matches nothing in
the fixture store errors yet returns the entity with updatedAt
refreshed to 9. -/
theorem C10_update_mutates_on_error_witness :
    (Update cStore1 { cTask1 with id := 77 } 9).1 = .error .notFound ∧
    (Update cStore1 { cTask1 with id := 77 } 9).2 =
      { cTask1 with id := 77, updatedAt := 9 } :=
  C10_update_mutates_on_error cStore1 { cTask1 with id := 77 } 9 rfl (by decide)

end TodoIt
